import Mathlib

/-!
# AgentOS — verification of the event-sourced dashboard and kernel contracts

A shallow embedding of the AgentOS frontend's event-projection functions
(`SessionDashboard.tsx`, `EventLog.tsx`, `ArtifactBrowser.tsx`) and of the
kernel contracts described in the specification (event log, tool substrate,
budget gating, replay).  Events are the record
`{run_id, seq, timestamp, event_type, payload}` with a JSON payload.
-/

namespace AgentOS

/-- A JSON value, the type of event payloads (`payload: Record<string, unknown>`). -/
inductive Json where
  | null : Json
  | bool (b : Bool) : Json
  | num (n : Int) : Json
  | str (s : String) : Json
  | arr (elems : List Json) : Json
  | obj (fields : List (String × Json)) : Json

/-- An event record, matching `EventResponse` in the frontend API types:
`{run_id: string; seq: number; timestamp: string; event_type: string; payload}`. -/
structure Event where
  run_id : String
  seq : Nat
  timestamp : String
  event_type : String
  payload : Json

/-- Field lookup on a JSON object: first binding of the key, if any. -/
def Json.get (j : Json) (key : String) : Option Json :=
  match j with
  | .obj fields =>
    match fields.find? (fun kv => kv.1 = key) with
    | some kv => some kv.2
    | none => none
  | _ => none

/-- `payload.k as string | undefined`: the field's value when it is a string. -/
def Json.getStr (j : Json) (key : String) : Option String :=
  match j.get key with
  | some (.str s) => some s
  | _ => none

/-- `payload.k as number | undefined`: the field's value when it is a number. -/
def Json.getNum (j : Json) (key : String) : Option Int :=
  match j.get key with
  | some (.num n) => some n
  | _ => none

/-- `payload.k as boolean | undefined`: the field's value when it is a boolean. -/
def Json.getBool (j : Json) (key : String) : Option Bool :=
  match j.get key with
  | some (.bool b) => some b
  | _ => none

/-- JavaScript `a || b` on a possibly-undefined string: `b` when `a` is
`undefined` or the empty string (both falsy), else the string itself. -/
def jsOr (a : Option String) (b : String) : String :=
  match a with
  | some s => if s = "" then b else s
  | none => b

/-- JavaScript `s.includes(pat)`: substring containment (true for the empty
pattern, as in JS). -/
def jsIncludes (s pat : String) : Bool :=
  decide (pat.toList <:+: s.toList)

/-- JavaScript `s.toLowerCase()`: lowercase every character. -/
def jsToLower (s : String) : String :=
  ⟨s.data.map Char.toLower⟩

/-! ## `estimateCost` (SessionDashboard.tsx)

```js
for (const e of events) {
  if (e.event_type === 'ToolCallFinished') { toolCalls++; }
  if (e.event_type === 'LMResponseReceived' || e.event_type === 'AgentStepCompleted') {
    const tokens = (e.payload.tokens_used as number) ||
      (e.payload.prompt_tokens as number ?? 0) + (e.payload.completion_tokens as number ?? 0);
    if (tokens > 0) totalTokens += tokens;
  }
}
```
-/

/-- The token count read from one event's payload:
`tokens_used || ((prompt_tokens ?? 0) + (completion_tokens ?? 0))`, where a
present-but-zero `tokens_used` is falsy and falls through to the sum. -/
def tokensOf (p : Json) : Int :=
  let fallback := (p.getNum "prompt_tokens").getD 0 + (p.getNum "completion_tokens").getD 0
  match p.getNum "tokens_used" with
  | some t => if t = 0 then fallback else t
  | none => fallback

/-- One iteration of the `estimateCost` loop, on the accumulator
`(totalTokens, toolCalls)`. -/
def costStep (acc : Int × Nat) (e : Event) : Int × Nat :=
  let acc1 := if e.event_type = "ToolCallFinished" then (acc.1, acc.2 + 1) else acc
  if e.event_type = "LMResponseReceived" ∨ e.event_type = "AgentStepCompleted" then
    let tokens := tokensOf e.payload
    if tokens > 0 then (acc1.1 + tokens, acc1.2) else acc1
  else acc1

/-- `estimateCost(events)`: returns `(totalTokens, toolCalls)`. -/
def estimateCost (events : List Event) : Int × Nat :=
  events.foldl costStep (0, 0)

theorem costStep_mono (acc : Int × Nat) (e : Event) :
    acc.1 ≤ (costStep acc e).1 ∧ acc.2 ≤ (costStep acc e).2 := by
  unfold costStep
  dsimp only
  split
  · split
    · constructor
      · have h : (0:Int) < tokensOf e.payload := by assumption
        split <;> simp <;> omega
      · split <;> simp
    · split <;> simp
  · split <;> simp

/-! ## `dagNodes` task-state projection (SessionDashboard.tsx)

```js
const taskEvents = events.filter(
  (e) => (e.event_type === 'TaskStarted' || e.event_type === 'TaskFinished') &&
    typeof e.payload.task_name === 'string' &&
    (e.payload.task_name as string).toLowerCase().includes(agent.role));
const finished = taskEvents.find((e) => e.event_type === 'TaskFinished');
let state = 'pending';
if (finished) state = (finished.payload.state as string) === 'SUCCEEDED' ? 'succeeded' : 'failed';
else if (taskEvents.length > 0) state = 'running';
```
-/

/-- The four derived task states shown on the dashboard DAG. -/
inductive TaskState where
  | pending : TaskState
  | running : TaskState
  | succeeded : TaskState
  | failed : TaskState
deriving DecidableEq

/-- The `taskEvents` filter predicate: a `TaskStarted`/`TaskFinished` event
whose `task_name` payload field is a string whose lowercasing contains the
agent's role. -/
def matchesAgent (role : String) (e : Event) : Bool :=
  (e.event_type == "TaskStarted" || e.event_type == "TaskFinished") &&
  (match e.payload.getStr "task_name" with
   | some tn => jsIncludes (jsToLower tn) role
   | none => false)

/-- The per-agent task state derived in `dagNodes`. -/
def dagNodeState (events : List Event) (role : String) : TaskState :=
  let taskEvents := events.filter (matchesAgent role)
  match taskEvents.find? (fun e => e.event_type == "TaskFinished") with
  | some f => if f.payload.getStr "state" = some "SUCCEEDED" then .succeeded else .failed
  | none => if taskEvents.length > 0 then .running else .pending

theorem find?_filter_eq {α : Type} (p q : α → Bool) (l : List α) :
    (l.filter p).find? q = l.find? (fun e => p e && q e) := by
  induction l with
  | nil => rfl
  | cons a t ih =>
    by_cases hp : p a = true
    · by_cases hq : q a = true
      · simp [List.filter_cons, hp, List.find?_cons, hq]
      · simp only [List.filter_cons, hp, if_true, List.find?_cons,
          Bool.not_eq_true] at *
        simp [hq, ih, hp]
    · simp only [Bool.not_eq_true] at hp
      simp [List.filter_cons, hp, List.find?_cons, ih]

/-- **C4** The dashboard's per-task state projection is total over the four
task states and matches the claimed characterization: `pending` iff no event
matches the agent, `running` iff matching events exist but none is a
`TaskFinished`, and when a first matching `TaskFinished` exists the state is
`succeeded` iff its `state` payload field is the string `SUCCEEDED`, else
`failed`. -/
theorem dagNodeState_characterization (events : List Event) (role : String) :
    (dagNodeState events role = .pending ∨ dagNodeState events role = .running ∨
      dagNodeState events role = .succeeded ∨ dagNodeState events role = .failed) ∧
    (dagNodeState events role = .pending ↔ ∀ e ∈ events, ¬ matchesAgent role e = true) ∧
    (dagNodeState events role = .running ↔
      ((∃ e ∈ events, matchesAgent role e = true) ∧
        ∀ e ∈ events, matchesAgent role e = true → e.event_type ≠ "TaskFinished")) ∧
    (∀ f, events.find? (fun e => matchesAgent role e && e.event_type == "TaskFinished") = some f →
      (dagNodeState events role = .succeeded ↔ f.payload.getStr "state" = some "SUCCEEDED") ∧
      (dagNodeState events role = .failed ↔ f.payload.getStr "state" ≠ some "SUCCEEDED")) := by
  unfold dagNodeState
  simp only [find?_filter_eq]
  cases hf : events.find? (fun e => matchesAgent role e && e.event_type == "TaskFinished") with
  | none =>
    have hnof : ∀ e ∈ events, ¬ (matchesAgent role e && e.event_type == "TaskFinished") = true := by
      rw [← List.find?_eq_none]; exact hf
    by_cases hlen : 0 < (events.filter (matchesAgent role)).length
    · simp only [hlen, if_true]
      refine ⟨by simp, ?_, ?_, by simp⟩
      · constructor
        · intro h; cases h
        · intro hall
          exfalso
          rw [List.length_pos] at hlen
          obtain ⟨e, he⟩ := List.exists_mem_of_ne_nil _ hlen
          have := (List.mem_filter.mp he)
          exact hall e this.1 this.2
      · constructor
        · intro _
          constructor
          · rw [List.length_pos] at hlen
            obtain ⟨e, he⟩ := List.exists_mem_of_ne_nil _ hlen
            have := (List.mem_filter.mp he)
            exact ⟨e, this.1, this.2⟩
          · intro e he hm hfin
            have := hnof e he
            simp [hm, hfin] at this
        · intro _; trivial
    · simp only [hlen, if_false]
      have hnil : events.filter (matchesAgent role) = [] := by
        rw [List.length_pos] at hlen
        simpa using hlen
      refine ⟨by simp, ?_, ?_, by simp⟩
      · constructor
        · intro _
          intro e he hm
          have : e ∈ events.filter (matchesAgent role) := List.mem_filter.mpr ⟨he, hm⟩
          rw [hnil] at this
          cases this
        · intro _; trivial
      · constructor
        · intro h; cases h
        · rintro ⟨⟨e, he, hm⟩, -⟩
          exfalso
          have : e ∈ events.filter (matchesAgent role) := List.mem_filter.mpr ⟨he, hm⟩
          rw [hnil] at this
          cases this
  | some f =>
    have hmemf : f ∈ events := List.mem_of_find?_eq_some hf
    have hpf := List.find?_some hf
    simp only [Bool.and_eq_true, beq_iff_eq] at hpf
    have hmf : matchesAgent role f = true := hpf.1
    have hff : f.event_type = "TaskFinished" := hpf.2
    by_cases hs : f.payload.getStr "state" = some "SUCCEEDED"
    · simp only [hs, if_true]
      refine ⟨by simp, ?_, ?_, ?_⟩
      · constructor
        · intro h; cases h
        · intro hall; exact absurd hmf (hall f hmemf)
      · constructor
        · intro h; cases h
        · rintro ⟨-, hnofin⟩; exact absurd hff (hnofin f hmemf hmf)
      · intro f' hf'
        injection hf' with hf'
        subst hf'
        exact ⟨by simp [hs], by simp [hs]⟩
    · simp only [hs, if_false]
      refine ⟨by simp, ?_, ?_, ?_⟩
      · constructor
        · intro h; cases h
        · intro hall; exact absurd hmf (hall f hmemf)
      · constructor
        · intro h; cases h
        · rintro ⟨-, hnofin⟩; exact absurd hff (hnofin f hmemf hmf)
      · intro f' hf'
        injection hf' with hf'
        subst hf'
        exact ⟨by simp [hs], by simp [hs]⟩

/-! ## `JSON.stringify` and the event-log filter (EventLog.tsx)

```js
const filtered = filter
  ? events.filter(
      (e) => e.event_type.toLowerCase().includes(filter.toLowerCase()) ||
        JSON.stringify(e.payload).toLowerCase().includes(filter.toLowerCase()))
  : events;
```
-/

/-- `JSON.stringify` escaping of a single character inside a string literal. -/
def jsEscapeChar (c : Char) : String :=
  if c = '"' then "\\\""
  else if c = '\\' then "\\\\"
  else if c = '\n' then "\\n"
  else if c = '\t' then "\\t"
  else if c = '\r' then "\\r"
  else String.singleton c

/-- `JSON.stringify` escaping of a string's characters. -/
def jsEscape (s : String) : String :=
  String.join (s.toList.map jsEscapeChar)

/-- `JSON.stringify` of a payload value: compact JSON serialization with
insertion-ordered object keys. -/
def Json.stringify : Json → String
  | .null => "null"
  | .bool b => if b then "true" else "false"
  | .num n => toString n
  | .str s => "\"" ++ jsEscape s ++ "\""
  | .arr elems =>
    "[" ++ String.intercalate "," (elems.attach.map (fun x => Json.stringify x.1)) ++ "]"
  | .obj fields =>
    "\x7b" ++
      String.intercalate ","
        (fields.attach.map (fun kv => "\"" ++ jsEscape kv.1.1 ++ "\":" ++ Json.stringify kv.1.2))
      ++ "\x7d"
decreasing_by
  · have := List.sizeOf_lt_of_mem x.2
    simp only [Json.arr.sizeOf_spec]
    omega
  · have h1 := List.sizeOf_lt_of_mem kv.2
    have h2 : sizeOf kv.1.2 < sizeOf kv.1 := by
      cases kv.1 with
      | mk a b => simp only [Prod.mk.sizeOf_spec]; omega
    simp only [Json.obj.sizeOf_spec]
    omega

/-- The predicate an event must pass when the filter string is non-empty:
`event_type` or the JSON-serialized payload contains the filter,
case-insensitively. -/
def eventMatchesFilter (filter : String) (e : Event) : Bool :=
  jsIncludes (jsToLower e.event_type) (jsToLower filter) ||
  jsIncludes (jsToLower (Json.stringify e.payload)) (jsToLower filter)

/-- The `filtered` list computed by the `EventLog` component: the input list
when the filter is empty (falsy), else the events passing
`eventMatchesFilter`. -/
def filterEvents (filter : String) (events : List Event) : List Event :=
  if filter = "" then events
  else events.filter (eventMatchesFilter filter)

/-- **C9** The event-log filter returns a subsequence of its input, and an
event of the input is kept exactly when the filter is empty or the event's
`event_type` or JSON-serialized payload contains the filter string
case-insensitively. -/
theorem filterEvents_spec (filter : String) (events : List Event) :
    (filterEvents filter events).Sublist events ∧
    ∀ e, e ∈ filterEvents filter events ↔
      (e ∈ events ∧ (filter = "" ∨ eventMatchesFilter filter e = true)) := by
  unfold filterEvents
  by_cases hf : filter = ""
  · simp [hf]
  · simp only [hf, if_false]
    refine ⟨List.filter_sublist _, ?_⟩
    intro e
    rw [List.mem_filter]
    simp [hf]

/-- Witness for **C9** at a concrete filter and event list: the filter
`"tool"` keeps the `ToolCallStarted` event and drops the `RunStarted`
event. -/
theorem filterEvents_spec_witness :
    (⟨"r", 1, "t1", "ToolCallStarted", .obj []⟩ : Event) ∈
      filterEvents "Tool"
        [⟨"r", 0, "t0", "RunStarted", .obj []⟩, ⟨"r", 1, "t1", "ToolCallStarted", .obj []⟩] :=
  ((filterEvents_spec "Tool"
      [⟨"r", 0, "t0", "RunStarted", .obj []⟩, ⟨"r", 1, "t1", "ToolCallStarted", .obj []⟩]).2
    ⟨"r", 1, "t1", "ToolCallStarted", .obj []⟩).mpr
    ⟨by simp, Or.inr (by rfl)⟩

/-- Witness for **C4**: a single `TaskFinished` event whose task name contains
the agent role and records `SUCCEEDED` makes the projection `succeeded`. -/
theorem dagNodeState_characterization_witness :
    dagNodeState [⟨"r", 0, "t", "TaskFinished",
        .obj [("task_name", .str "Scanner"), ("state", .str "SUCCEEDED")]⟩] "scan"
      = TaskState.succeeded :=
  ((dagNodeState_characterization [⟨"r", 0, "t", "TaskFinished",
        .obj [("task_name", .str "Scanner"), ("state", .str "SUCCEEDED")]⟩] "scan").2.2.2
      ⟨"r", 0, "t", "TaskFinished",
        .obj [("task_name", .str "Scanner"), ("state", .str "SUCCEEDED")]⟩
      (by rfl)).1.mpr (by rfl)

/-! ## Streamed-event merge (SessionDashboard.tsx)

```js
setEvents((prev) => {
  const key = `${event.run_id}-${event.seq}`;
  if (prev.some((e) => `${e.run_id}-${e.seq}` === key)) return prev;
  return [...prev, event];
});
```
-/

/-- The dedup key `${run_id}-${seq}` used by the dashboard's stream merge. -/
def eventKey (e : Event) : String :=
  e.run_id ++ "-" ++ Nat.repr e.seq

/-- Merge a streamed event into the current list: return the previous list
unchanged when it already holds an event with the same key, else append. -/
def mergeEvent (prev : List Event) (e : Event) : List Event :=
  if prev.any (fun x => eventKey x == eventKey e) then prev
  else prev ++ [e]

/-- Decimal digit characters of `n`, most significant first. -/
def digitsOf (n : Nat) : List Char :=
  if n < 10 then [Nat.digitChar n]
  else digitsOf (n / 10) ++ [Nat.digitChar (n % 10)]
decreasing_by
  exact Nat.div_lt_self (by omega) (by omega)

theorem digitChar_inj_lt : ∀ a < 10, ∀ b < 10, Nat.digitChar a = Nat.digitChar b → a = b := by
  decide

theorem digitChar_ne_dash : ∀ a < 10, Nat.digitChar a ≠ '-' := by
  decide

theorem digitsOf_ne_nil (n : Nat) : digitsOf n ≠ [] := by
  rw [digitsOf]
  split
  · simp
  · simp

theorem mem_digitsOf_ne_dash (n : Nat) : ∀ c ∈ digitsOf n, c ≠ '-' := by
  induction n using Nat.strong_induction_on with
  | _ n ih =>
    rw [digitsOf]
    split
    · intro c hc
      simp only [List.mem_singleton] at hc
      subst hc
      exact digitChar_ne_dash n (by omega)
    · intro c hc
      rcases List.mem_append.mp hc with h | h
      · exact ih (n / 10) (Nat.div_lt_self (by omega) (by omega)) c h
      · simp only [List.mem_singleton] at h
        subst h
        exact digitChar_ne_dash (n % 10) (Nat.mod_lt _ (by omega))

theorem digitsOf_eq (n : Nat) :
    digitsOf n =
      if n < 10 then [Nat.digitChar n] else digitsOf (n / 10) ++ [Nat.digitChar (n % 10)] := by
  conv_lhs => rw [digitsOf]

theorem digitsOf_inj : ∀ a b : Nat, digitsOf a = digitsOf b → a = b := by
  intro a
  induction a using Nat.strong_induction_on with
  | _ a ih =>
    intro b h
    rw [digitsOf_eq a, digitsOf_eq b] at h
    by_cases ha : a < 10 <;> by_cases hb : b < 10
    · simp only [ha, hb, if_true] at h
      injection h with h
      exact digitChar_inj_lt a ha b hb h
    · simp only [ha, hb, if_true, if_false] at h
      exfalso
      have hlen := congrArg List.length h
      simp only [List.length_append, List.length_cons, List.length_nil] at hlen
      have h0 : (digitsOf (b / 10)).length = 0 := by omega
      exact digitsOf_ne_nil (b / 10) (List.length_eq_zero.mp h0)
    · simp only [ha, hb, if_true, if_false] at h
      exfalso
      have hlen := congrArg List.length h
      simp only [List.length_append, List.length_cons, List.length_nil] at hlen
      have h0 : (digitsOf (a / 10)).length = 0 := by omega
      exact digitsOf_ne_nil (a / 10) (List.length_eq_zero.mp h0)
    · simp only [ha, hb, if_false] at h
      have hp := List.append_inj' h (by simp)
      have hdiv : a / 10 = b / 10 :=
        ih (a / 10) (Nat.div_lt_self (by omega) (by omega)) (b / 10) hp.1
      have hmod : a % 10 = b % 10 := by
        have h2l := hp.2
        injection h2l with h2
        exact digitChar_inj_lt (a % 10) (Nat.mod_lt _ (by omega)) (b % 10)
          (Nat.mod_lt _ (by omega)) h2
      omega

theorem toDigitsCore_eq_digitsOf :
    ∀ (f n : Nat) (ds : List Char), 0 < f → n < 10 ^ f →
      Nat.toDigitsCore 10 f n ds = digitsOf n ++ ds := by
  intro f
  induction f with
  | zero => intro n ds h; omega
  | succ f ih =>
    intro n ds _ hlt
    rw [Nat.toDigitsCore]
    by_cases hn : n < 10
    · have hdiv : n / 10 = 0 := Nat.div_eq_of_lt hn
      simp only [hdiv, if_true]
      rw [digitsOf]
      simp [hn, Nat.mod_eq_of_lt hn]
    · have hdiv : ¬ n / 10 = 0 := by
        have h1 : 1 ≤ n / 10 := (Nat.one_le_div_iff (by omega)).mpr (by omega)
        omega
      simp only [hdiv, if_false]
      have hf : 0 < f := by
        by_contra hf0
        have : f = 0 := by omega
        subst this
        simp at hlt
        omega
      have hlt' : n / 10 < 10 ^ f := by
        rw [Nat.div_lt_iff_lt_mul (by omega)]
        calc n < 10 ^ (f + 1) := hlt
          _ = 10 ^ f * 10 := by rw [Nat.pow_succ]
      rw [ih (n / 10) (Nat.digitChar (n % 10) :: ds) hf hlt']
      conv_rhs => rw [digitsOf]
      simp only [hn, if_false]
      rw [List.append_assoc]
      rfl

theorem toDigits_eq_digitsOf (n : Nat) : Nat.toDigits 10 n = digitsOf n := by
  rw [Nat.toDigits]
  rw [toDigitsCore_eq_digitsOf (n + 1) n [] (by omega) ?hlt]
  · exact List.append_nil _
  case hlt =>
    calc n < 10 ^ n := Nat.lt_pow_self (by omega) n
      _ ≤ 10 ^ (n + 1) := Nat.pow_le_pow_right (by omega) (by omega)

theorem string_data_inj {a b : String} (h : a.data = b.data) : a = b := by
  cases a; cases b; exact congrArg String.mk h

theorem nat_repr_inj {a b : Nat} (h : Nat.repr a = Nat.repr b) : a = b := by
  have hd : Nat.toDigits 10 a = Nat.toDigits 10 b := by
    have := congrArg String.data h
    simpa [Nat.repr, List.asString] using this
  rw [toDigits_eq_digitsOf, toDigits_eq_digitsOf] at hd
  exact digitsOf_inj a b hd

theorem dash_not_mem_repr (n : Nat) : '-' ∉ (Nat.repr n).data := by
  intro hm
  have : '-' ∈ Nat.toDigits 10 n := by
    simpa [Nat.repr, List.asString] using hm
  rw [toDigits_eq_digitsOf] at this
  exact mem_digitsOf_ne_dash n '-' this rfl

theorem append_dash_inj :
    ∀ (r1 r2 s1 s2 : List Char), '-' ∉ s1 → '-' ∉ s2 →
      r1 ++ '-' :: s1 = r2 ++ '-' :: s2 → r1 = r2 ∧ s1 = s2 := by
  intro r1
  induction r1 with
  | nil =>
    intro r2 s1 s2 h1 h2 h
    cases r2 with
    | nil => simpa using h
    | cons b t =>
      simp only [List.nil_append, List.cons_append, List.cons.injEq] at h
      exfalso
      apply h1
      rw [h.2]
      exact List.mem_append_right _ (List.mem_cons_self _ _)
  | cons a t ih =>
    intro r2 s1 s2 h1 h2 h
    cases r2 with
    | nil =>
      simp only [List.nil_append, List.cons_append, List.cons.injEq] at h
      exfalso
      apply h2
      rw [← h.2]
      exact List.mem_append_right _ (List.mem_cons_self _ _)
    | cons b t2 =>
      simp only [List.cons_append, List.cons.injEq] at h
      have := ih t2 s1 s2 h1 h2 h.2
      exact ⟨by rw [h.1, this.1], this.2⟩

theorem eventKey_inj {x e : Event} (h : eventKey x = eventKey e) :
    x.run_id = e.run_id ∧ x.seq = e.seq := by
  unfold eventKey at h
  have hd := congrArg String.data h
  have hsplit : x.run_id.data ++ '-' :: (Nat.repr x.seq).data =
      e.run_id.data ++ '-' :: (Nat.repr e.seq).data := by
    simpa [String.append, List.append_assoc] using hd
  obtain ⟨h1, h2⟩ :=
    append_dash_inj _ _ _ _ (dash_not_mem_repr x.seq) (dash_not_mem_repr e.seq) hsplit
  exact ⟨string_data_inj h1, nat_repr_inj (string_data_inj h2)⟩

/-- **C8** Merging a streamed event into the dashboard's event list is
idempotent on duplicates and append-only otherwise: when the list already
holds an event with the same `run_id` and `seq` the merge returns the list
unchanged, and otherwise it returns the list with the event appended at the
end. -/
theorem mergeEvent_spec (prev : List Event) (e : Event) :
    ((∃ x ∈ prev, x.run_id = e.run_id ∧ x.seq = e.seq) → mergeEvent prev e = prev) ∧
    ((¬ ∃ x ∈ prev, x.run_id = e.run_id ∧ x.seq = e.seq) →
      mergeEvent prev e = prev ++ [e]) := by
  constructor
  · rintro ⟨x, hx, hrid, hseq⟩
    unfold mergeEvent
    rw [if_pos]
    rw [List.any_eq_true]
    refine ⟨x, hx, ?_⟩
    simp [eventKey, hrid, hseq]
  · intro hno
    unfold mergeEvent
    rw [if_neg]
    intro hany
    rw [List.any_eq_true] at hany
    obtain ⟨x, hx, hk⟩ := hany
    have hke : eventKey x = eventKey e := by simpa using hk
    exact hno ⟨x, hx, eventKey_inj hke⟩

/-- Witness for **C8** at concrete inputs: a duplicate `(run_id, seq)` leaves
the list unchanged, a fresh one is appended at the end. -/
theorem mergeEvent_spec_witness :
    mergeEvent [⟨"r", 0, "t", "RunStarted", .obj []⟩] ⟨"r", 0, "t2", "Dup", .obj []⟩ =
      [⟨"r", 0, "t", "RunStarted", .obj []⟩] ∧
    mergeEvent [⟨"r", 0, "t", "RunStarted", .obj []⟩] ⟨"r", 1, "t2", "TaskStarted", .obj []⟩ =
      [⟨"r", 0, "t", "RunStarted", .obj []⟩, ⟨"r", 1, "t2", "TaskStarted", .obj []⟩] := by
  constructor
  · exact (mergeEvent_spec _ _).1 ⟨⟨"r", 0, "t", "RunStarted", .obj []⟩, by simp, rfl, rfl⟩
  · refine (mergeEvent_spec _ _).2 ?_
    rintro ⟨x, hx, -, hseq⟩
    simp only [List.mem_singleton] at hx
    subst hx
    exact absurd hseq (by decide)

/-! ## `extractArtifacts` (ArtifactBrowser.tsx)

```js
for (const e of events) {
  if (e.event_type !== 'ToolCallFinished') continue;
  const toolName = e.payload.tool_name as string | undefined;
  if (!toolName) continue;
  if (toolName === 'file_write' || toolName === 'google_docs_write' ||
      toolName === 'google_sheets_write') {
    const output = e.payload.output as string | undefined;
    const fileName = (e.payload.file_path as string) || (e.payload.path as string) ||
      output?.match(/(?:saved?|wro?te?|created?)\s+(?:to\s+)?["']?([^\s"']+)/i)?.[1] ||
      `artifact_${artifacts.length + 1}`;
    if (!seen.has(fileName)) { seen.add(fileName); artifacts.push({...}); }
  }
}
```
-/

/-- JavaScript regex `\s`: a whitespace character. -/
def isWsChar (c : Char) : Bool :=
  c = ' ' || c = '\t' || c = '\n' || c = '\r' || c = '\x0b' || c = '\x0c'

/-- A character excluded by the capture class `[^\s"']`. -/
def isCapStop (c : Char) : Bool :=
  isWsChar c || c = '"' || c = '\''

/-- Case-insensitive literal word match at the head of the input; returns the
remaining characters on success. -/
def matchWordCI : List Char → List Char → Option (List Char)
  | [], rest => some rest
  | _ :: _, [] => none
  | x :: ws, c :: rest =>
    if c.toLower = x.toLower then matchWordCI ws rest else none

/-- The tail `["']?([^\s"']+)` of the artifact-name regex: optionally consume
one quote, then capture a maximal non-empty run of non-stop characters. -/
def capTail (cs : List Char) : Option (List Char) :=
  let cs1 :=
    match cs with
    | c :: rest => if c = '"' ∨ c = '\'' then rest else cs
    | [] => cs
  let cap := cs1.takeWhile (fun c => !isCapStop c)
  if cap = [] then none else some cap

/-- The part `(?:to\s+)?["']?([^\s"']+)` after the mandatory whitespace: try
the optional `to\s+` group first, falling back (regex backtracking) to the
bare tail. -/
def afterSpace (cs : List Char) : Option (List Char) :=
  match matchWordCI ['t', 'o'] cs with
  | some rest =>
    (match rest with
     | c :: rest2 =>
       if isWsChar c then
         match capTail (rest2.dropWhile isWsChar) with
         | some cap => some cap
         | none => capTail cs
       else capTail cs
     | [] => capTail cs)
  | none => capTail cs

/-- Try one leading word alternative followed by `\s+` and `afterSpace`. -/
def tryWord (w : List Char) (cs : List Char) : Option (List Char) :=
  match matchWordCI w cs with
  | some rest =>
    (match rest with
     | c :: rest2 =>
       if isWsChar c then afterSpace (rest2.dropWhile isWsChar) else none
     | [] => none)
  | none => none

/-- Try the word alternatives in the regex's backtracking order. -/
def tryWords : List (List Char) → List Char → Option (List Char)
  | [], _ => none
  | w :: ws, cs =>
    match tryWord w cs with
    | some cap => some cap
    | none => tryWords ws cs

/-- The expansion of `(?:saved?|wro?te?|created?)` in backtracking order:
alternatives left to right, greedy optional letters first. -/
def artifactRegexWords : List (List Char) :=
  [['s','a','v','e','d'], ['s','a','v','e'],
   ['w','r','o','t','e'], ['w','r','o','t'], ['w','r','t','e'], ['w','r','t'],
   ['c','r','e','a','t','e','d'], ['c','r','e','a','t','e']]

/-- Leftmost-first scan of the input for the artifact-name regex; returns
capture group 1 of the first match. -/
def scanForName : List Char → Option (List Char)
  | [] => none
  | c :: rest =>
    match tryWords artifactRegexWords (c :: rest) with
    | some cap => some cap
    | none => scanForName rest

/-- `output.match(/(?:saved?|wro?te?|created?)\s+(?:to\s+)?["']?([^\s"']+)/i)?.[1]`. -/
def jsMatchOutput (s : String) : Option String :=
  (scanForName s.data).map (fun l => ⟨l⟩)

/-- One artifact row shown in the browser
(`{name, type: 'file', agent, timestamp}`). -/
structure ArtifactEntry where
  name : String
  type : String
  agent : String
  timestamp : String
deriving DecidableEq

/-- The file name derived for an artifact event, given the number of artifacts
collected so far: `file_path || path || output-regex-capture ||
artifact_${count+1}`. -/
def deriveFileName (e : Event) (count : Nat) : String :=
  jsOr (e.payload.getStr "file_path")
    (jsOr (e.payload.getStr "path")
      (jsOr ((e.payload.getStr "output").bind jsMatchOutput)
        ("artifact_" ++ Nat.repr (count + 1))))

/-- The artifact row pushed for an accepted event. -/
def mkArtifactEntry (e : Event) (nm : String) : ArtifactEntry :=
  { name := nm, type := "file",
    agent := jsOr (e.payload.getStr "agent_role") "unknown",
    timestamp := e.timestamp }

/-- One iteration of the `extractArtifacts` loop on the mutable state
`(artifacts, seen)`. -/
def artifactStep (acc : List ArtifactEntry × List String) (e : Event) :
    List ArtifactEntry × List String :=
  if e.event_type ≠ "ToolCallFinished" then acc
  else
    match e.payload.getStr "tool_name" with
    | none => acc
    | some tn =>
      if tn = "" then acc
      else if tn = "file_write" ∨ tn = "google_docs_write" ∨ tn = "google_sheets_write" then
        let fileName := deriveFileName e acc.1.length
        if fileName ∈ acc.2 then acc
        else (acc.1 ++ [mkArtifactEntry e fileName], fileName :: acc.2)
      else acc

/-- `extractArtifacts(events)`: the artifact rows derived from an event
stream. -/
def extractArtifacts (events : List Event) : List ArtifactEntry :=
  (events.foldl artifactStep ([], [])).1

/-- A `ToolCallFinished` event whose `tool_name` is one of the three
file-writing tools (and truthy), as the amended claim describes. -/
def isArtifactEvent (e : Event) : Bool :=
  e.event_type == "ToolCallFinished" &&
  (match e.payload.getStr "tool_name" with
   | some tn =>
     !(tn == "") &&
       (tn == "file_write" || tn == "google_docs_write" || tn == "google_sheets_write")
   | none => false)

/-- Reference formulation of the amended claim: walk the events in order; a
`ToolCallFinished` of a file-writing tool contributes one entry — regardless
of any success flag or side-effect class — unless its derived file name was
already produced. -/
def refLoop : List Event → List ArtifactEntry → List ArtifactEntry
  | [], acc => acc
  | e :: rest, acc =>
    if isArtifactEvent e then
      let nm := deriveFileName e acc.length
      if nm ∈ acc.map ArtifactEntry.name then refLoop rest acc
      else refLoop rest (acc ++ [mkArtifactEntry e nm])
    else refLoop rest acc

/-- The amended claim's artifact list. -/
def extractArtifactsRef (events : List Event) : List ArtifactEntry :=
  refLoop events []

/-- An event of a failed `file_write` tool call (success flag false). -/
def failedWriteEvent : Event :=
  { run_id := "r", seq := 3, timestamp := "t3", event_type := "ToolCallFinished",
    payload := .obj [("tool_name", .str "file_write"), ("success", .bool false),
                     ("file_path", .str "out.txt")] }

/-- **C2 counterexample** `extractArtifacts` produces an artifact entry from a
`ToolCallFinished` event whose `success` payload flag is `false`, refuting the
claim that an artifact record is created only when a WRITE/DESTRUCTIVE tool
call completes successfully: the success flag is never consulted. -/
theorem extractArtifacts_success_counterexample :
    failedWriteEvent.payload.getBool "success" = some false ∧
    extractArtifacts [failedWriteEvent] =
      [{ name := "out.txt", type := "file", agent := "unknown", timestamp := "t3" }] :=
  ⟨rfl, rfl⟩

theorem foldl_artifactStep_eq_refLoop :
    ∀ (events : List Event) (acc : List ArtifactEntry) (seen : List String),
      (∀ s, s ∈ seen ↔ s ∈ acc.map ArtifactEntry.name) →
      (events.foldl artifactStep (acc, seen)).1 = refLoop events acc := by
  intro events
  induction events with
  | nil => intro acc seen _; rfl
  | cons e rest ih =>
    intro acc seen hinv
    rw [List.foldl_cons, refLoop]
    by_cases ht : e.event_type = "ToolCallFinished"
    · cases htn : e.payload.getStr "tool_name" with
      | none =>
        have hart : isArtifactEvent e = false := by
          simp [isArtifactEvent, htn]
        rw [hart]
        simp only [if_false, Bool.false_eq_true]
        have hstep : artifactStep (acc, seen) e = (acc, seen) := by
          simp [artifactStep, ht, htn]
        rw [hstep]
        exact ih acc seen hinv
      | some tn =>
        by_cases hemp : tn = ""
        · have hart : isArtifactEvent e = false := by
            simp [isArtifactEvent, htn, hemp]
          rw [hart]
          simp only [if_false, Bool.false_eq_true]
          have hstep : artifactStep (acc, seen) e = (acc, seen) := by
            simp [artifactStep, ht, htn, hemp]
          rw [hstep]
          exact ih acc seen hinv
        · by_cases hset : tn = "file_write" ∨ tn = "google_docs_write" ∨
              tn = "google_sheets_write"
          · have hart : isArtifactEvent e = true := by
              simp only [isArtifactEvent, htn, Bool.and_eq_true, beq_iff_eq]
              refine ⟨ht, ?_⟩
              rcases hset with h | h | h <;> simp [h, hemp]
            rw [hart]
            simp only [if_true]
            by_cases hseen : deriveFileName e acc.length ∈ seen
            · have hmem : deriveFileName e acc.length ∈ acc.map ArtifactEntry.name :=
                (hinv _).mp hseen
              have hstep : artifactStep (acc, seen) e = (acc, seen) := by
                simp [artifactStep, ht, htn, hemp, hset, hseen]
              rw [hstep, if_pos hmem]
              exact ih acc seen hinv
            · have hmem : deriveFileName e acc.length ∉ acc.map ArtifactEntry.name :=
                fun h => hseen ((hinv _).mpr h)
              have hstep : artifactStep (acc, seen) e =
                  (acc ++ [mkArtifactEntry e (deriveFileName e acc.length)],
                   deriveFileName e acc.length :: seen) := by
                simp [artifactStep, ht, htn, hemp, hset, hseen]
              rw [hstep, if_neg hmem]
              apply ih
              intro s
              simp only [List.mem_cons, List.map_append, List.mem_append,
                List.map_cons, List.map_nil, List.mem_singleton, mkArtifactEntry]
              rw [hinv s]
              tauto
          · have hart : isArtifactEvent e = false := by
              push_neg at hset
              simp [isArtifactEvent, htn, hemp, hset.1, hset.2.1, hset.2.2]
            rw [hart]
            simp only [if_false, Bool.false_eq_true]
            have hstep : artifactStep (acc, seen) e = (acc, seen) := by
              simp only [artifactStep, htn, ne_eq, ht, not_true_eq_false, if_false]
              rw [if_neg hemp, if_neg hset]
            rw [hstep]
            exact ih acc seen hinv
    · have hart : isArtifactEvent e = false := by
        simp [isArtifactEvent, ht]
      rw [hart]
      simp only [if_false, Bool.false_eq_true]
      have hstep : artifactStep (acc, seen) e = (acc, seen) := by
        simp [artifactStep, ht]
      rw [hstep]
      exact ih acc seen hinv

/-- **C2 amended** The artifact list equals the amended-claim reference: one
entry, in event order, for each `ToolCallFinished` event whose `tool_name` is
`file_write`, `google_docs_write` or `google_sheets_write` and whose derived
file name is new — regardless of the success flag — and an entry for no other
event. -/
theorem extractArtifacts_eq_ref (events : List Event) :
    extractArtifacts events = extractArtifactsRef events :=
  foldl_artifactStep_eq_refLoop events [] [] (by simp)

/-- **C3** Budget usage counters derived from the event list are monotonically
non-decreasing under appending an event: for every event list `es` and event
`e`, both the total-token estimate and the tool-call count computed by
`estimateCost` from `es ++ [e]` are at least those computed from `es`. -/
theorem estimateCost_monotone (es : List Event) (e : Event) :
    (estimateCost es).1 ≤ (estimateCost (es ++ [e])).1 ∧
    (estimateCost es).2 ≤ (estimateCost (es ++ [e])).2 := by
  unfold estimateCost
  rw [List.foldl_append]
  exact costStep_mono (es.foldl costStep (0, 0)) e

/-! ## Kernel event log (§4.1)

The kernel itself ships separately from these frontend sources; its event-log
contract is modelled from the specification. -/

/-- Modelled from the spec: the kernel's per-run append-only event store
(§4.1), absent from the frontend sources.  `logs` maps a `run_id` to the
events appended for that run, in order. -/
structure LogStore where
  logs : String → List Event

/-- The store before any append. -/
def emptyStore : LogStore := ⟨fun _ => []⟩

/-- Modelled from the spec: `append(run_id, event_type, payload) -> seq`, the
only write operation; `seq` is assigned atomically at append time as the next
integer for that run.  Returns the updated store and the assigned `seq`. -/
def appendEvent (st : LogStore) (rid ty ts : String) (p : Json) : LogStore × Nat :=
  let es := st.logs rid
  (⟨fun r => if r = rid then es ++ [⟨rid, es.length, ts, ty, p⟩] else st.logs r⟩, es.length)

/-- An interleaving of atomic appends by any number of concurrent appenders:
each step is one atomic append, to any run, with any event type and
payload. -/
inductive Steps : LogStore → LogStore → Prop
  | refl (st : LogStore) : Steps st st
  | append (st st' : LogStore) (rid ty ts : String) (p : Json) :
      Steps st st' → Steps st (appendEvent st' rid ty ts p).1

/-- A store reachable from the empty store by some interleaving of appends. -/
def Reachable (st : LogStore) : Prop := Steps emptyStore st

theorem appendEvent_logs_same (st : LogStore) (rid ty ts : String) (p : Json) :
    (appendEvent st rid ty ts p).1.logs rid =
      st.logs rid ++ [⟨rid, (st.logs rid).length, ts, ty, p⟩] := by
  simp [appendEvent]

theorem appendEvent_logs_other (st : LogStore) (rid ty ts : String) (p : Json)
    (r : String) (h : r ≠ rid) :
    (appendEvent st rid ty ts p).1.logs r = st.logs r := by
  simp [appendEvent, h]

theorem steps_seq_range {a b : LogStore} (h : Steps a b)
    (ha : ∀ rid, (a.logs rid).map Event.seq = List.range (a.logs rid).length) :
    ∀ rid, (b.logs rid).map Event.seq = List.range (b.logs rid).length := by
  induction h with
  | refl => exact ha
  | append st' rid ty ts p _ ih =>
    intro r
    by_cases hr : r = rid
    · subst hr
      rw [appendEvent_logs_same, List.map_append, ih r]
      simp [List.range_succ]
    · rw [appendEvent_logs_other st' rid ty ts p r hr]
      exact ih r

theorem steps_length_mono {a b : LogStore} (h : Steps a b) (rid : String) :
    (a.logs rid).length ≤ (b.logs rid).length := by
  induction h with
  | refl => exact le_refl _
  | append st' r ty ts p _ ih =>
    by_cases hr : rid = r
    · subst hr
      rw [appendEvent_logs_same]
      simp only [List.length_append]
      omega
    · rw [appendEvent_logs_other st' r ty ts p rid hr]
      exact ih

/-- **C1** In every reachable store, each run's event `seq` values are exactly
`0, 1, …, n-1` — contiguous from 0, strictly increasing, no gaps and no
duplicates — and two appends to the same run at different points of any
interleaving of concurrent appenders receive distinct `seq` values. -/
theorem eventlog_seq_contiguous (st : LogStore) (h : Reachable st) (rid : String) :
    ((st.logs rid).map Event.seq = List.range (st.logs rid).length) ∧
    (∀ ty ts p st' ty' ts' p',
      Steps (appendEvent st rid ty ts p).1 st' →
      (appendEvent st' rid ty' ts' p').2 ≠ (appendEvent st rid ty ts p).2) := by
  constructor
  · exact steps_seq_range h (by intro r; rfl) rid
  · intro ty ts p st' ty' ts' p' hsteps
    have h1 : (((appendEvent st rid ty ts p).1).logs rid).length = (st.logs rid).length + 1 := by
      rw [appendEvent_logs_same]
      simp
    have h2 := steps_length_mono hsteps rid
    rw [h1] at h2
    simp only [appendEvent]
    omega

/-- Witness for **C1**: after one append to run `r` the seq list is
`range 1`, and a second and third append to `r` (at successive interleaving
points) receive distinct seqs. -/
theorem eventlog_seq_contiguous_witness :
    (((appendEvent emptyStore "r" "RunStarted" "t0" (.obj [])).1.logs "r").map Event.seq =
      List.range ((appendEvent emptyStore "r" "RunStarted" "t0" (.obj [])).1.logs "r").length) ∧
    (appendEvent
        (appendEvent (appendEvent emptyStore "r" "RunStarted" "t0" (.obj [])).1
          "r" "TaskStarted" "t1" (.obj [])).1
        "r" "TaskFinished" "t2" (.obj [])).2 ≠
      (appendEvent (appendEvent emptyStore "r" "RunStarted" "t0" (.obj [])).1
        "r" "TaskStarted" "t1" (.obj [])).2 := by
  have hreach : Reachable (appendEvent emptyStore "r" "RunStarted" "t0" (.obj [])).1 :=
    Steps.append _ _ _ _ _ _ (Steps.refl emptyStore)
  have h := eventlog_seq_contiguous _ hreach "r"
  exact ⟨h.1, h.2 "TaskStarted" "t1" (.obj []) _ "TaskFinished" "t2" (.obj []) (Steps.refl _)⟩

/-! ## Budget-gated tool dispatch (§4.3, §8) -/

/-- Modelled from the spec: the executor-side state of one run relevant to
the `max_tool_calls` ceiling — the run's event log, the running tool-call
counter versus its declared ceiling, the cooperative abort flag, and a count
of tool bodies actually executed.  The executor itself ships separately from
these frontend sources. -/
structure RunState where
  run_id : String
  log : List Event
  toolCallsUsed : Nat
  maxToolCalls : Nat
  aborted : Bool
  bodiesExecuted : Nat

/-- An event appended by the executor, with the next `seq` for the run. -/
def mkEvent (rid : String) (n : Nat) (ty : String) (p : Json) : Event :=
  ⟨rid, n, "", ty, p⟩

/-- Modelled from the spec: the budget check-then-commit around one tool
call.  The charge is checked *before* committing: a call whose count would
exceed `max_tool_calls` emits only `BudgetExceeded` (with the offending
resource and ceiling) and aborts the run; otherwise `ToolCallStarted` is
appended, the body runs, `ToolCallFinished` is appended and one tool call is
charged.  An already-aborted run dispatches nothing. -/
def attemptToolCall (s : RunState) (toolName : String) (success : Bool) : RunState :=
  if s.aborted then s
  else if s.maxToolCalls < s.toolCallsUsed + 1 then
    { s with
      log := s.log ++ [mkEvent s.run_id s.log.length "BudgetExceeded"
        (.obj [("resource", .str "tool_calls"), ("ceiling", .num (s.maxToolCalls : Int))])],
      aborted := true }
  else
    { s with
      log := s.log ++
        [mkEvent s.run_id s.log.length "ToolCallStarted"
          (.obj [("tool_name", .str toolName)]),
         mkEvent s.run_id (s.log.length + 1) "ToolCallFinished"
          (.obj [("tool_name", .str toolName), ("success", .bool success)])],
      toolCallsUsed := s.toolCallsUsed + 1,
      bodiesExecuted := s.bodiesExecuted + 1 }

/-- **C5** A tool call whose count would exceed the `max_tool_calls` ceiling
is never executed: the only emitted event is `BudgetExceeded` (in particular
no `ToolCallStarted` is appended), the body-execution counter is unchanged,
the run is aborted, and — budget violations being fatal and never retried —
any further dispatch attempt on the aborted run is a no-op. -/
theorem budget_gate (s : RunState) (toolName : String) (success : Bool)
    (hrun : s.aborted = false) (hex : s.maxToolCalls < s.toolCallsUsed + 1) :
    (attemptToolCall s toolName success).log =
      s.log ++ [mkEvent s.run_id s.log.length "BudgetExceeded"
        (.obj [("resource", .str "tool_calls"), ("ceiling", .num (s.maxToolCalls : Int))])] ∧
    (∀ e ∈ (attemptToolCall s toolName success).log,
      e ∈ s.log ∨ e.event_type = "BudgetExceeded") ∧
    (attemptToolCall s toolName success).bodiesExecuted = s.bodiesExecuted ∧
    (attemptToolCall s toolName success).aborted = true ∧
    (∀ toolName' success',
      attemptToolCall (attemptToolCall s toolName success) toolName' success' =
        attemptToolCall s toolName success) := by
  have hstep : attemptToolCall s toolName success =
      { s with
        log := s.log ++ [mkEvent s.run_id s.log.length "BudgetExceeded"
          (.obj [("resource", .str "tool_calls"), ("ceiling", .num (s.maxToolCalls : Int))])],
        aborted := true } := by
    unfold attemptToolCall
    rw [hrun]
    simp only [Bool.false_eq_true, if_false]
    rw [if_pos hex]
  refine ⟨by rw [hstep], ?_, by rw [hstep], by rw [hstep], ?_⟩
  · intro e he
    rw [hstep] at he
    simp only [List.mem_append, List.mem_singleton] at he
    rcases he with h | h
    · exact Or.inl h
    · subst h
      exact Or.inr rfl
  · intro toolName' success'
    rw [hstep]
    unfold attemptToolCall
    simp

/-- Witness for **C5**: a run with a ceiling of one tool call, one already
used, emits only `BudgetExceeded` on the next attempt and ends aborted with
no body executed. -/
theorem budget_gate_witness :
    (attemptToolCall ⟨"r", [], 1, 1, false, 1⟩ "file_write" true).log =
      [mkEvent "r" 0 "BudgetExceeded"
        (.obj [("resource", .str "tool_calls"), ("ceiling", .num 1)])] ∧
    (attemptToolCall ⟨"r", [], 1, 1, false, 1⟩ "file_write" true).bodiesExecuted = 1 ∧
    (attemptToolCall ⟨"r", [], 1, 1, false, 1⟩ "file_write" true).aborted = true := by
  have h := budget_gate ⟨"r", [], 1, 1, false, 1⟩ "file_write" true rfl (by decide)
  exact ⟨h.1, h.2.2.1, h.2.2.2.1⟩

/-! ## Tool substrate invocation (§4.2) -/

/-- Modelled from the spec: a registered tool — name, declared input
contract (validation predicate) and body.  Tool implementations ship in
domain packs outside these sources. -/
structure Tool where
  name : String
  validate : Json → Bool
  body : Json → Except String Json

/-- The outcome of one `invoke`. -/
inductive InvokeResult where
  | ok (output : Json) : InvokeResult
  | validationError : InvokeResult
  | executionError (msg : String) : InvokeResult

/-- Modelled from the spec (§4.2): `invoke` emits `ToolCallStarted` with a
canonical input hash, validates the input — on failure emitting a failed
`ToolCallFinished` without executing the body — otherwise runs the body and
emits `ToolCallFinished` with the success flag (and output hash on success).
Returns the emitted events, whether the body ran, and the result. -/
def invoke (t : Tool) (rid : String) (input : Json) :
    List Event × Bool × InvokeResult :=
  let started := mkEvent rid 0 "ToolCallStarted"
    (.obj [("tool_name", .str t.name), ("input_hash", .str (Json.stringify input))])
  if ¬ t.validate input then
    ([started, mkEvent rid 1 "ToolCallFinished"
        (.obj [("tool_name", .str t.name), ("success", .bool false)])],
     false, .validationError)
  else
    match t.body input with
    | .ok out =>
      ([started, mkEvent rid 1 "ToolCallFinished"
          (.obj [("tool_name", .str t.name), ("success", .bool true),
                 ("output_hash", .str (Json.stringify out))])],
       true, .ok out)
    | .error msg =>
      ([started, mkEvent rid 1 "ToolCallFinished"
          (.obj [("tool_name", .str t.name), ("success", .bool false)])],
       true, .executionError msg)

/-- **C6** Every invocation — validating, succeeding or raising — emits
exactly one terminal `ToolCallFinished` (it is the last emitted event), and
the tool body runs only when a validated `ToolCallStarted` precedes it: if
the body ran, the first emitted event is `ToolCallStarted` and the input
validated. -/
theorem invoke_bookkeeping (t : Tool) (rid : String) (input : Json) :
    ((invoke t rid input).1.countP (fun e => e.event_type == "ToolCallFinished") = 1) ∧
    (((invoke t rid input).1.getLast?).map Event.event_type = some "ToolCallFinished") ∧
    ((invoke t rid input).2.1 = true →
      ((invoke t rid input).1.head?.map Event.event_type = some "ToolCallStarted") ∧
      t.validate input = true) := by
  unfold invoke
  by_cases hv : t.validate input
  · simp only [hv, not_true_eq_false, if_false]
    cases hb : t.body input with
    | ok out =>
      refine ⟨?_, ?_, fun _ => ⟨rfl, trivial⟩⟩
      · simp [List.countP, List.countP.go, mkEvent]
      · rfl
    | error msg =>
      refine ⟨?_, ?_, fun _ => ⟨rfl, trivial⟩⟩
      · simp [List.countP, List.countP.go, mkEvent]
      · rfl
  · simp only [hv, not_false_eq_true, if_true]
    refine ⟨?_, ?_, ?_⟩
    · simp [List.countP, List.countP.go, mkEvent]
    · rfl
    · intro hfalse
      simp at hfalse

/-- A demonstration tool: accepts any input and echoes it back. -/
def echoTool : Tool :=
  { name := "echo", validate := fun _ => true, body := fun j => .ok j }

/-- Witness for **C6**: invoking the echo tool runs the body, and the first
emitted event is its validated `ToolCallStarted`. -/
theorem invoke_bookkeeping_witness :
    (invoke echoTool "r" .null).2.1 = true ∧
    ((invoke echoTool "r" .null).1.head?.map Event.event_type = some "ToolCallStarted") ∧
    ((invoke echoTool "r" .null).1.countP
      (fun e => e.event_type == "ToolCallFinished") = 1) :=
  ⟨rfl, ((invoke_bookkeeping echoTool "r" .null).2.2 rfl).1,
   (invoke_bookkeeping echoTool "r" .null).1⟩

/-! ## Strict replay (§4.7)

The replay engine ships separately from these frontend sources; it is
modelled from the specification: every entity is a projection over the event
sequence, and strict replay recomputes those projections from a read-only
copy of the log, re-executing nothing. -/

/-- `ArtifactMeta`: metadata of a produced object (§3). -/
structure ArtifactMeta where
  artifact_id : String
  path : String
  content_hash : String
  producing_task : String
deriving DecidableEq

/-- The payload of an `ArtifactCreated` event carrying an `ArtifactMeta`. -/
def artifactPayload (a : ArtifactMeta) : Json :=
  .obj [("artifact_id", .str a.artifact_id), ("path", .str a.path),
        ("content_hash", .str a.content_hash), ("task_id", .str a.producing_task)]

/-- Read an `ArtifactMeta` back from an `ArtifactCreated` payload. -/
def artifactOfPayload (p : Json) : Option ArtifactMeta :=
  match p.getStr "artifact_id", p.getStr "path",
        p.getStr "content_hash", p.getStr "task_id" with
  | some i, some pa, some h, some t => some ⟨i, pa, h, t⟩
  | _, _, _, _ => none

theorem artifact_roundtrip (a : ArtifactMeta) :
    artifactOfPayload (artifactPayload a) = some a := by
  cases a
  rfl

/-- Modelled from the spec: the kernel's Task-state projection over an event
log — the recorded terminal state if a `TaskFinished` for the task exists,
else RUNNING if it has started, else PENDING. -/
def projTaskState (log : List Event) (tid : String) : TaskState :=
  match log.find? (fun e =>
      e.event_type == "TaskFinished" && e.payload.getStr "task_id" == some tid) with
  | some f => if f.payload.getStr "state" = some "SUCCEEDED" then .succeeded else .failed
  | none =>
    if log.any (fun e =>
        e.event_type == "TaskStarted" && e.payload.getStr "task_id" == some tid) then
      .running
    else .pending

/-- Modelled from the spec: the artifact-list projection over an event log —
the `ArtifactMeta` carried by each `ArtifactCreated` event, in order. -/
def projArtifacts (log : List Event) : List ArtifactMeta :=
  log.filterMap (fun e =>
    if e.event_type = "ArtifactCreated" then artifactOfPayload e.payload else none)

/-- Modelled from the spec: the live executor's per-run state — the event log
it has appended plus the task-state and artifact bookkeeping it maintains as
it goes. -/
structure LiveState where
  log : List Event
  states : String → TaskState
  artifacts : List ArtifactMeta

/-- A freshly created run: empty log, all tasks PENDING, no artifacts. -/
def initLive : LiveState := ⟨[], fun _ => .pending, []⟩

/-- The `TaskStarted` event for a task. -/
def taskStartedEvent (rid tid : String) (n : Nat) : Event :=
  ⟨rid, n, "", "TaskStarted", .obj [("task_id", .str tid)]⟩

/-- The `TaskFinished` event recording a task's terminal state. -/
def taskFinishedEvent (rid tid : String) (ok : Bool) (n : Nat) : Event :=
  ⟨rid, n, "", "TaskFinished",
    .obj [("task_id", .str tid), ("state", .str (if ok then "SUCCEEDED" else "FAILED"))]⟩

/-- The `ArtifactCreated` event for a produced artifact. -/
def artifactEvent (rid : String) (a : ArtifactMeta) (n : Nat) : Event :=
  ⟨rid, n, "", "ArtifactCreated", artifactPayload a⟩

/-- Modelled from the spec: one observable step of a live run.  Tasks follow
`PENDING → RUNNING → {SUCCEEDED, FAILED}`; artifacts are recorded with an
`ArtifactCreated` event; any other event type (tool calls, budget, policy,
run lifecycle) leaves the task and artifact bookkeeping untouched. -/
inductive LiveStep (rid : String) : LiveState → LiveState → Prop
  | startTask (s : LiveState) (tid : String) (h : s.states tid = .pending) :
      LiveStep rid s
        ⟨s.log ++ [taskStartedEvent rid tid s.log.length],
         fun t => if t = tid then .running else s.states t, s.artifacts⟩
  | finishTask (s : LiveState) (tid : String) (ok : Bool) (h : s.states tid = .running) :
      LiveStep rid s
        ⟨s.log ++ [taskFinishedEvent rid tid ok s.log.length],
         fun t => if t = tid then (if ok then .succeeded else .failed) else s.states t,
         s.artifacts⟩
  | createArtifact (s : LiveState) (a : ArtifactMeta) :
      LiveStep rid s
        ⟨s.log ++ [artifactEvent rid a s.log.length], s.states, s.artifacts ++ [a]⟩
  | other (s : LiveState) (e : Event)
      (h1 : e.event_type ≠ "TaskStarted") (h2 : e.event_type ≠ "TaskFinished")
      (h3 : e.event_type ≠ "ArtifactCreated") :
      LiveStep rid s ⟨s.log ++ [e], s.states, s.artifacts⟩

/-- The live states a run can reach. -/
inductive LiveReachable (rid : String) : LiveState → Prop
  | init : LiveReachable rid initLive
  | step {s s' : LiveState} :
      LiveReachable rid s → LiveStep rid s s' → LiveReachable rid s'

/-- What strict replay returns: the reconstructed projections, the tools it
re-executed and the events it appended. -/
structure ReplayResult where
  taskStates : String → TaskState
  artifacts : List ArtifactMeta
  toolsReExecuted : List String
  eventsAppended : List Event

/-- Modelled from the spec (§4.7): `replay(run_id, strict)` reconstructs all
derived state from the recorded events alone on a read-only copy of the log —
no tool is re-executed and no event is appended. -/
def replayStrict (log : List Event) : ReplayResult :=
  { taskStates := fun tid => projTaskState log tid,
    artifacts := projArtifacts log,
    toolsReExecuted := [],
    eventsAppended := [] }

/-- A run that has reached a terminal state (a `RunFinished` was recorded). -/
def RunCompleted (s : LiveState) : Prop :=
  ∃ e ∈ s.log, e.event_type = "RunFinished"

theorem find?_append_none {α : Type} (p : α → Bool) (l1 l2 : List α)
    (h : l1.find? p = none) : (l1 ++ l2).find? p = l2.find? p := by
  induction l1 with
  | nil => rfl
  | cons a t ih =>
    by_cases hp : p a
    · rw [List.find?_cons_of_pos _ hp] at h
      cases h
    · rw [List.find?_cons_of_neg _ hp] at h
      rw [List.cons_append, List.find?_cons_of_neg _ hp]
      exact ih h

theorem find?_append_some {α : Type} (p : α → Bool) (l1 l2 : List α) {a : α}
    (h : l1.find? p = some a) : (l1 ++ l2).find? p = some a := by
  induction l1 with
  | nil => cases h
  | cons x t ih =>
    by_cases hp : p x
    · rw [List.find?_cons_of_pos _ hp] at h
      rw [List.cons_append, List.find?_cons_of_pos _ hp]
      exact h
    · rw [List.find?_cons_of_neg _ hp] at h
      rw [List.cons_append, List.find?_cons_of_neg _ hp]
      exact ih h

theorem getStr_taskStarted (rid tid : String) (n : Nat) :
    (taskStartedEvent rid tid n).payload.getStr "task_id" = some tid := rfl

theorem getStr_taskFinished_tid (rid tid : String) (ok : Bool) (n : Nat) :
    (taskFinishedEvent rid tid ok n).payload.getStr "task_id" = some tid := rfl

theorem getStr_taskFinished_state (rid tid : String) (ok : Bool) (n : Nat) :
    (taskFinishedEvent rid tid ok n).payload.getStr "state" =
      some (if ok then "SUCCEEDED" else "FAILED") := by
  cases ok <;> rfl

/-- The task-state projection is unaffected by appending an event that is not
a task event for `tid`. -/
theorem projTaskState_append_irrelevant (log : List Event) (e : Event) (tid : String)
    (hfin : ¬ (e.event_type == "TaskFinished" &&
      e.payload.getStr "task_id" == some tid) = true)
    (hsta : ¬ (e.event_type == "TaskStarted" &&
      e.payload.getStr "task_id" == some tid) = true) :
    projTaskState (log ++ [e]) tid = projTaskState log tid := by
  unfold projTaskState
  cases hf : log.find? (fun x =>
      x.event_type == "TaskFinished" && x.payload.getStr "task_id" == some tid) with
  | some f =>
    rw [find?_append_some _ _ _ hf]
  | none =>
    rw [find?_append_none _ _ _ hf]
    have h1 : List.find? (fun x => x.event_type == "TaskFinished" &&
        x.payload.getStr "task_id" == some tid) [e] = none := by
      rw [List.find?_eq_none]
      intro x hx
      simp only [List.mem_singleton] at hx
      subst hx
      exact hfin
    rw [h1]
    have h2 : (e.event_type == "TaskStarted" &&
        e.payload.getStr "task_id" == some tid) = false := by
      revert hsta
      cases (e.event_type == "TaskStarted" && e.payload.getStr "task_id" == some tid) <;>
        simp
    simp [List.any_append, h2]

theorem getStr_obj_tid (tid : String) :
    (Json.obj [("task_id", Json.str tid)]).getStr "task_id" = some tid := rfl

theorem getStr_obj_fin_tid (tid s : String) :
    (Json.obj [("task_id", Json.str tid), ("state", Json.str s)]).getStr "task_id"
      = some tid := rfl

theorem getStr_obj_fin_state (tid s : String) :
    (Json.obj [("task_id", Json.str tid), ("state", Json.str s)]).getStr "state"
      = some s := rfl

/-- When the log holds a first matching `TaskFinished`, the projection is the
recorded terminal state. -/
theorem projTaskState_of_find_some (log : List Event) (tid : String) (f : Event)
    (hf : log.find? (fun x =>
      x.event_type == "TaskFinished" && x.payload.getStr "task_id" == some tid) = some f) :
    projTaskState log tid =
      (if f.payload.getStr "state" = some "SUCCEEDED" then .succeeded else .failed) := by
  unfold projTaskState
  rw [hf]

/-- Appending a `TaskStarted` for `tid` while no `TaskFinished` for `tid` is
recorded makes the projection RUNNING. -/
theorem projTaskState_append_started (log : List Event) (rid tid : String)
    (hfin : log.find? (fun x =>
      x.event_type == "TaskFinished" && x.payload.getStr "task_id" == some tid) = none) :
    projTaskState (log ++ [taskStartedEvent rid tid log.length]) tid = .running := by
  unfold projTaskState
  rw [find?_append_none _ _ _ hfin]
  have h1 : List.find? (fun x => x.event_type == "TaskFinished" &&
      x.payload.getStr "task_id" == some tid) [taskStartedEvent rid tid log.length]
        = none := by
    rw [List.find?_eq_none]
    intro x hx
    simp only [List.mem_singleton] at hx
    subst hx
    simp [taskStartedEvent]
  rw [h1]
  have h2 : ((taskStartedEvent rid tid log.length).event_type == "TaskStarted" &&
      (taskStartedEvent rid tid log.length).payload.getStr "task_id" == some tid)
        = true := by
    show (("TaskStarted" : String) == "TaskStarted" &&
      (Json.obj [("task_id", Json.str tid)]).getStr "task_id" == some tid) = true
    rw [getStr_obj_tid]
    simp
  simp [List.any_append, h2]

/-- Appending a `TaskFinished` for `tid` while none is recorded makes the
projection the recorded terminal state. -/
theorem projTaskState_append_finished (log : List Event) (rid tid : String) (ok : Bool)
    (hfin : log.find? (fun x =>
      x.event_type == "TaskFinished" && x.payload.getStr "task_id" == some tid) = none) :
    projTaskState (log ++ [taskFinishedEvent rid tid ok log.length]) tid =
      (if ok then .succeeded else .failed) := by
  have hp : ((taskFinishedEvent rid tid ok log.length).event_type == "TaskFinished" &&
      (taskFinishedEvent rid tid ok log.length).payload.getStr "task_id" == some tid)
        = true := by
    show (("TaskFinished" : String) == "TaskFinished" &&
      (Json.obj [("task_id", Json.str tid),
        ("state", Json.str (if ok then "SUCCEEDED" else "FAILED"))]).getStr "task_id"
          == some tid) = true
    rw [getStr_obj_fin_tid]
    simp
  have hsome : (log ++ [taskFinishedEvent rid tid ok log.length]).find? (fun x =>
      x.event_type == "TaskFinished" && x.payload.getStr "task_id" == some tid)
        = some (taskFinishedEvent rid tid ok log.length) := by
    rw [find?_append_none _ _ _ hfin]
    exact List.find?_cons_of_pos _ hp
  rw [projTaskState_of_find_some _ _ _ hsome]
  rw [getStr_taskFinished_state]
  cases ok <;> simp

/-- A pending projection means no `TaskFinished` for `tid` is recorded. -/
theorem projTaskState_pending_elim (log : List Event) (tid : String)
    (h : projTaskState log tid = .pending) :
    log.find? (fun x =>
      x.event_type == "TaskFinished" && x.payload.getStr "task_id" == some tid) = none := by
  cases hf : log.find? (fun x =>
      x.event_type == "TaskFinished" && x.payload.getStr "task_id" == some tid) with
  | none => rfl
  | some f =>
    rw [projTaskState_of_find_some _ _ _ hf] at h
    split at h <;> cases h

/-- A running projection means no `TaskFinished` for `tid` is recorded. -/
theorem projTaskState_running_elim (log : List Event) (tid : String)
    (h : projTaskState log tid = .running) :
    log.find? (fun x =>
      x.event_type == "TaskFinished" && x.payload.getStr "task_id" == some tid) = none := by
  cases hf : log.find? (fun x =>
      x.event_type == "TaskFinished" && x.payload.getStr "task_id" == some tid) with
  | none => rfl
  | some f =>
    rw [projTaskState_of_find_some _ _ _ hf] at h
    split at h <;> cases h


theorem live_projections {rid : String} {s : LiveState} (h : LiveReachable rid s) :
    (∀ tid, projTaskState s.log tid = s.states tid) ∧
    projArtifacts s.log = s.artifacts := by
  induction h with
  | init => exact ⟨fun _ => rfl, rfl⟩
  | step hr hs ih =>
    rename_i s1 s2
    obtain ⟨ihs, iha⟩ := ih
    cases hs with
    | startTask tid h =>
      refine ⟨?_, ?_⟩
      · intro t
        show projTaskState (s1.log ++ [taskStartedEvent rid tid s1.log.length]) t =
          if t = tid then .running else s1.states t
        by_cases ht : t = tid
        · subst ht
          rw [if_pos rfl]
          exact projTaskState_append_started s1.log rid t
            (projTaskState_pending_elim s1.log t (by rw [ihs t, h]))
        · rw [if_neg ht]
          rw [← ihs t]
          apply projTaskState_append_irrelevant
          · simp [taskStartedEvent]
          · simp only [taskStartedEvent, getStr_obj_tid, Bool.and_eq_true, beq_iff_eq,
              Option.some.injEq]
            rintro ⟨-, hc⟩
            exact ht hc.symm
      · show projArtifacts (s1.log ++ [taskStartedEvent rid tid s1.log.length]) =
          s1.artifacts
        unfold projArtifacts at iha ⊢
        rw [List.filterMap_append]
        simp [taskStartedEvent, iha]
    | finishTask tid ok h =>
      refine ⟨?_, ?_⟩
      · intro t
        show projTaskState (s1.log ++ [taskFinishedEvent rid tid ok s1.log.length]) t =
          if t = tid then (if ok then .succeeded else .failed) else s1.states t
        by_cases ht : t = tid
        · subst ht
          rw [if_pos rfl]
          exact projTaskState_append_finished s1.log rid t ok
            (projTaskState_running_elim s1.log t (by rw [ihs t, h]))
        · rw [if_neg ht]
          rw [← ihs t]
          apply projTaskState_append_irrelevant
          · simp only [taskFinishedEvent, getStr_obj_fin_tid, Bool.and_eq_true,
              beq_iff_eq, Option.some.injEq]
            rintro ⟨-, hc⟩
            exact ht hc.symm
          · simp [taskFinishedEvent]
      · show projArtifacts (s1.log ++ [taskFinishedEvent rid tid ok s1.log.length]) =
          s1.artifacts
        unfold projArtifacts at iha ⊢
        rw [List.filterMap_append]
        simp [taskFinishedEvent, iha]
    | createArtifact a =>
      refine ⟨?_, ?_⟩
      · intro t
        show projTaskState (s1.log ++ [artifactEvent rid a s1.log.length]) t = s1.states t
        rw [← ihs t]
        apply projTaskState_append_irrelevant
        · simp [artifactEvent]
        · simp [artifactEvent]
      · show projArtifacts (s1.log ++ [artifactEvent rid a s1.log.length]) =
          s1.artifacts ++ [a]
        unfold projArtifacts at iha ⊢
        rw [List.filterMap_append, iha]
        simp [artifactEvent, artifact_roundtrip]
    | other e h1 h2 h3 =>
      refine ⟨?_, ?_⟩
      · intro t
        show projTaskState (s1.log ++ [e]) t = s1.states t
        rw [← ihs t]
        apply projTaskState_append_irrelevant
        · simp only [Bool.and_eq_true, beq_iff_eq]
          rintro ⟨hc, -⟩
          exact h2 hc
        · simp only [Bool.and_eq_true, beq_iff_eq]
          rintro ⟨hc, -⟩
          exact h1 hc
      · show projArtifacts (s1.log ++ [e]) = s1.artifacts
        unfold projArtifacts at iha ⊢
        rw [List.filterMap_append, iha]
        simp [h3]


/-- **C7** Strict-mode replay of any completed run reproduces exactly the
task-state assignment and `ArtifactMeta` list the live run produced, while
re-executing no tool and appending no event to the run's log. -/
theorem replayStrict_faithful (rid : String) (s : LiveState)
    (hreach : LiveReachable rid s) (_hdone : RunCompleted s) :
    (∀ tid, (replayStrict s.log).taskStates tid = s.states tid) ∧
    (replayStrict s.log).artifacts = s.artifacts ∧
    (replayStrict s.log).toolsReExecuted = [] ∧
    (replayStrict s.log).eventsAppended = [] := by
  obtain ⟨hs, ha⟩ := live_projections hreach
  exact ⟨hs, ha, rfl, rfl⟩

/-- A concrete completed run: task `t1` started and succeeded, one artifact
recorded, then `RunFinished`. -/
def demoRunFinal : LiveState :=
  ⟨[taskStartedEvent "r" "t1" 0, taskFinishedEvent "r" "t1" true 1,
    artifactEvent "r" ⟨"a1", "out.txt", "h1", "t1"⟩ 2,
    ⟨"r", 3, "", "RunFinished", .obj []⟩],
   fun t => if t = "t1" then .succeeded else .pending,
   [⟨"a1", "out.txt", "h1", "t1"⟩]⟩

theorem demoRun_reachable : LiveReachable "r" demoRunFinal := by
  have h0 : LiveReachable "r" initLive := LiveReachable.init
  have h1 := LiveReachable.step h0 (LiveStep.startTask initLive "t1" rfl)
  have h2 := LiveReachable.step h1 (LiveStep.finishTask _ "t1" true (by simp [initLive]))
  have h3 := LiveReachable.step h2 (LiveStep.createArtifact _ ⟨"a1", "out.txt", "h1", "t1"⟩)
  have h4 := LiveReachable.step h3
    (LiveStep.other _ ⟨"r", 3, "", "RunFinished", .obj []⟩
      (by decide) (by decide) (by decide))
  convert h4 using 1
  show demoRunFinal = _
  unfold demoRunFinal
  congr 1
  all_goals funext t
  all_goals by_cases ht : t = "t1" <;> simp [initLive, ht]

/-- Witness for **C7**: on the concrete completed run, strict replay
reproduces the live task state of `t1` and the artifact list, re-executes
nothing and appends nothing. -/
theorem replayStrict_faithful_witness :
    (replayStrict demoRunFinal.log).taskStates "t1" = demoRunFinal.states "t1" ∧
    (replayStrict demoRunFinal.log).artifacts = demoRunFinal.artifacts ∧
    (replayStrict demoRunFinal.log).toolsReExecuted = [] ∧
    (replayStrict demoRunFinal.log).eventsAppended = [] := by
  have h := replayStrict_faithful "r" demoRunFinal demoRun_reachable
    ⟨⟨"r", 3, "", "RunFinished", .obj []⟩, by simp [demoRunFinal], rfl⟩
  exact ⟨h.1 "t1", h.2.1, h.2.2.1, h.2.2.2⟩

end AgentOS
